import Mathlib

/-!
Verification development for the `get-size` crate.

The crate computes the memory footprint of a value as a fixed stack part
plus the transitively owned heap part, threading a visited-address tracker
through shared-ownership boundaries (`Rc`, `Arc`, `Weak`).  We shallowly
embed the parts of `src/src/lib.rs` and `src/get-size-derive/src/lib.rs`
that the claims are about:

* the `GetSizeTracker` trait and its three implementations
  (`BTreeSet<*const ()>`, `HashSet<*const ()>`, `GetSizeNoTracker`);
* the `GetSize` trait: `get_stack_size` (type-level constant),
  `get_heap_size` (instance-level, tracker-threading) and the derived
  `get_size`;
* the built-in `get_heap_size` rules for primitives, text/byte buffers,
  capacity-exposing containers (`Vec`, `HashSet`, `VecDeque`,
  `BinaryHeap`), no-capacity containers (`BTreeSet`, `LinkedList`),
  `Box`, `Rc`/`Arc`, `rc::Weak`/`sync::Weak`, `Option`, 2-tuples,
  `Mutex` and `RwLock`;
* the derive macro `derive_get_size` together with
  `extract_ignored_generics` and `add_trait_bounds`.

Rust's `&mut dyn GetSizeTracker` becomes explicit state passing; the
possibly cyclic heap reached through `Rc`/`Arc`/`Weak` addresses becomes
an explicit store from addresses to values, and the recursion through the
store is fueled: `none` means the fuel ran out, i.e. the corresponding
Rust recursion has not terminated within that depth of shared-ownership
dereferences.
-/

/-- The two set-backed tracker implementations of `GetSizeTracker` in
`src/src/lib.rs` (lines 33-43): `BTreeSet<*const ()>` and
`HashSet<*const ()>`.  Both track by `insert`, which returns whether the
address is new. -/
inductive SetImpl where
  | btree
  | hash
deriving DecidableEq

/-- A value of `&mut dyn GetSizeTracker`: one of the three tracker
implementations found in `src/src/lib.rs`.  Addresses (`*const ()`) are
modelled as natural numbers. -/
inductive Tracker where
  /-- `BTreeSet<*const ()>` or `HashSet<*const ()>` holding the set of
  already visited addresses. -/
  | set (impl : SetImpl) (seen : List Nat)
  /-- `GetSizeNoTracker` (lines 45-51): stateless. -/
  | noTracker
deriving DecidableEq

/-- `GetSizeTracker::track`.  For the set-backed trackers this is
`self.insert(address)` (true iff the address was not present, the address
is recorded); `GetSizeNoTracker::track` always returns true and keeps no
state. -/
def track : Tracker → Nat → Bool × Tracker
  | .set i s, a => if a ∈ s then (false, .set i s) else (true, .set i (a :: s))
  | .noTracker, _ => (true, .noTracker)

/-- The capacity-exposing set-like containers, i.e. the four types the
`impl_size_set!` macro is instantiated at (lines 240-246):
`BinaryHeap`, `HashSet`, `VecDeque`, `Vec`. -/
inductive CapKind where
  | vec
  | hashSet
  | vecDeque
  | binaryHeap
deriving DecidableEq

/-- The containers without an exposed capacity, i.e. the instantiations
of `impl_size_set_no_capacity!` (lines 239, 243): `BTreeSet`,
`LinkedList`. -/
inductive NoCapKind where
  | btreeSet
  | linkedList
deriving DecidableEq

/-- The (static) Rust types of the embedded fragment. -/
inductive Ty where
  | unit
  | bool
  | u8
  | u64
  | strRef
  | string
  | osString
  | cString
  | boxedStr
  | pathBuf
  | capSet (k : CapKind) (t : Ty)
  | noCapSet (k : NoCapKind) (t : Ty)
  | boxed (t : Ty)
  | rc (t : Ty)
  | arc (t : Ty)
  | weakRc (t : Ty)
  | weakArc (t : Ty)
  | option (t : Ty)
  | pair (a b : Ty)
  | mutex (t : Ty)
  | rwLock (t : Ty)
deriving DecidableEq

/-- `GetSize::get_stack_size`, i.e. `std::mem::size_of::<Self>()`
(lines 58-60).  The concrete constants model the usual 64-bit `std`
layouts; no claim depends on the particular numbers, only on stack sizes
being a fixed per-type constant, which this function is. -/
def get_stack_size : Ty → Nat
  | .unit => 0
  | .bool => 1
  | .u8 => 1
  | .u64 => 8
  | .strRef => 16
  | .string => 24
  | .osString => 24
  | .cString => 16
  | .boxedStr => 16
  | .pathBuf => 24
  | .capSet .vec _ => 24
  | .capSet .hashSet _ => 48
  | .capSet .vecDeque _ => 32
  | .capSet .binaryHeap _ => 24
  | .noCapSet .btreeSet _ => 24
  | .noCapSet .linkedList _ => 24
  | .boxed _ => 8
  | .rc _ => 8
  | .arc _ => 8
  | .weakRc _ => 8
  | .weakArc _ => 8
  | .option t => 8 + get_stack_size t
  | .pair a b => get_stack_size a + get_stack_size b
  | .mutex t => 8 + get_stack_size t
  | .rwLock t => 8 + get_stack_size t

/-- A runtime value of the embedded fragment.  Shared-ownership pointees
live in a separate store and are referenced by address, so that shared
and even cyclic reachability graphs are representable. -/
inductive Value where
  | vUnit
  | vBool (b : Bool)
  | vU8 (n : Nat)
  | vU64 (n : Nat)
  /-- `&str` with the given length (no owned heap data). -/
  | vStrRef (len : Nat)
  /-- `String` with used length `len` and allocated capacity `cap`
  (`std` guarantees `len ≤ cap`). -/
  | vString (len cap : Nat)
  /-- `OsString` with used length `len` and allocated capacity `cap`. -/
  | vOsString (len cap : Nat)
  /-- `CString`; `lenWithNul` is `as_bytes_with_nul().len()`, the exact
  allocation size (a `CString` has no spare capacity). -/
  | vCString (lenWithNul : Nat)
  /-- `Box<str>`; the allocation is exactly `len` bytes. -/
  | vBoxedStr (len : Nat)
  /-- `PathBuf` with used length `len` and allocated capacity `cap`. -/
  | vPathBuf (len cap : Nat)
  /-- A capacity-exposing container with element type `t`, elements
  `elems` and capacity `cap` (`std` guarantees `elems.length ≤ cap`). -/
  | vCapSet (k : CapKind) (t : Ty) (elems : List Value) (cap : Nat)
  /-- A container without an exposed capacity. -/
  | vNoCapSet (k : NoCapKind) (t : Ty) (elems : List Value)
  | vBoxed (t : Ty) (v : Value)
  /-- `Rc<T>`: the pointee is `store.lookup addr`. -/
  | vRc (t : Ty) (addr : Nat)
  /-- `Arc<T>`. -/
  | vArc (t : Ty) (addr : Nat)
  /-- `std::rc::Weak<T>`; a dangling address models a freed target
  (`upgrade` returns `None`). -/
  | vWeakRc (t : Ty) (addr : Nat)
  /-- `std::sync::Weak<T>`. -/
  | vWeakArc (t : Ty) (addr : Nat)
  | vOption (t : Ty) (o : Option Value)
  /-- A 2-tuple (`impl_size_tuple!`). -/
  | vPair (a b : Value)
  /-- A `Mutex<T>` whose lock is not poisoned, guarding `v`; the
  acquisition with the poison state explicit (whose `Err` branch panics
  in the source) is embedded separately as `mutex_get_heap_size`. -/
  | vMutex (t : Ty) (v : Value)
  /-- An `RwLock<T>` whose lock is not poisoned, guarding `v`; see
  `rwlock_get_heap_size` for the acquisition with poison explicit. -/
  | vRwLock (t : Ty) (v : Value)

/-- The static type of a value. -/
def typeOf : Value → Ty
  | .vUnit => .unit
  | .vBool _ => .bool
  | .vU8 _ => .u8
  | .vU64 _ => .u64
  | .vStrRef _ => .strRef
  | .vString _ _ => .string
  | .vOsString _ _ => .osString
  | .vCString _ => .cString
  | .vBoxedStr _ => .boxedStr
  | .vPathBuf _ _ => .pathBuf
  | .vCapSet k t _ _ => .capSet k t
  | .vNoCapSet k t _ => .noCapSet k t
  | .vBoxed t _ => .boxed t
  | .vRc t _ => .rc t
  | .vArc t _ => .arc t
  | .vWeakRc t _ => .weakRc t
  | .vWeakArc t _ => .weakArc t
  | .vOption t _ => .option t
  | .vPair a b => .pair (typeOf a) (typeOf b)
  | .vMutex t _ => .mutex t
  | .vRwLock t _ => .rwLock t

/-- The heap of shared-ownership allocations: a finite map from
addresses to the stored values. -/
def Store := List (Nat × Value)

/-- Look an address up in the store (the pointee of an `Rc`/`Arc`, or of
a `Weak` whose target is still alive; `none` models a freed target). -/
def lookupStore (store : Store) (a : Nat) : Option Value :=
  (List.find? (fun p => p.1 = a) store).map Prod.snd

mutual

/-- `GetSize::get_heap_size` of `src/src/lib.rs`, over the embedded value
fragment, with the `&mut dyn GetSizeTracker` turned into state passing
and the recursion through the store fueled: one unit of fuel is spent on
each dereference of a live `Rc`/`Arc`/`Weak` pointee, and `none` means
the fuel ran out.  Each arm is the body of the corresponding `impl
GetSize for ...` in the source; types with no `get_heap_size` override
use the trait default `0` (lines 66-68).  The `vMutex`/`vRwLock` arms
are the `Ok` branch of `self.lock().unwrap()` / `self.read().unwrap()`
(the fragment's lock values are unpoisoned); the poisoned branch, which
panics in the source, is embedded by `mutex_get_heap_size` and
`rwlock_get_heap_size` below. -/
def get_heap_size (store : Store) : Nat → Value → Tracker → Option (Nat × Tracker)
  | _, .vUnit, tr => some (0, tr)
  | _, .vBool _, tr => some (0, tr)
  | _, .vU8 _, tr => some (0, tr)
  | _, .vU64 _, tr => some (0, tr)
  | _, .vStrRef _, tr => some (0, tr)
  | _, .vString _ cap, tr => some (cap, tr)
  | _, .vOsString len _, tr => some (len, tr)
  | _, .vCString lenWithNul, tr => some (lenWithNul, tr)
  | _, .vBoxedStr len, tr => some (len, tr)
  | _, .vPathBuf _ cap, tr => some (cap, tr)
  | fuel, .vCapSet _ t elems cap, tr =>
    (heap_size_elems store fuel t elems 0 tr).map
      (fun p => (p.1 + (cap - elems.length) * get_stack_size t, p.2))
  | fuel, .vNoCapSet _ t elems, tr => heap_size_elems store fuel t elems 0 tr
  | fuel, .vBoxed t v, tr =>
    (get_heap_size store fuel v tr).map (fun p => (get_stack_size t + p.1, p.2))
  | fuel, .vRc t addr, tr =>
    match track tr addr with
    | (true, tr') =>
      match fuel, lookupStore store addr with
      | _, none => some (0, tr')
      | 0, some _ => none
      | f + 1, some pv =>
        (get_heap_size store f pv tr').map (fun p => (get_stack_size t + p.1, p.2))
    | (false, tr') => some (0, tr')
  | fuel, .vArc t addr, tr =>
    match track tr addr with
    | (true, tr') =>
      match fuel, lookupStore store addr with
      | _, none => some (0, tr')
      | 0, some _ => none
      | f + 1, some pv =>
        (get_heap_size store f pv tr').map (fun p => (get_stack_size t + p.1, p.2))
    | (false, tr') => some (0, tr')
  | fuel, .vWeakRc t addr, tr =>
    match track tr addr with
    | (true, tr') =>
      match fuel, lookupStore store addr with
      | _, none => some (0, tr')
      | 0, some _ => none
      | f + 1, some pv =>
        (get_heap_size store f pv tr').map (fun p => (get_stack_size t + p.1, p.2))
    | (false, tr') => some (0, tr')
  | fuel, .vWeakArc t addr, tr =>
    match track tr addr with
    | (true, tr') =>
      match fuel, lookupStore store addr with
      | _, none => some (0, tr')
      | 0, some _ => none
      | f + 1, some pv =>
        (get_heap_size store f pv tr').map (fun p => (get_stack_size t + p.1, p.2))
    | (false, tr') => some (0, tr')
  | fuel, .vOption _ o, tr =>
    match o with
    | none => some (0, tr)
    | some v => get_heap_size store fuel v tr
  | fuel, .vPair a b, tr =>
    match get_heap_size store fuel a tr with
    | none => none
    | some (ha, tr') =>
      (get_heap_size store fuel b tr').map (fun p => (ha + p.1, p.2))
  | fuel, .vMutex _ v, tr => get_heap_size store fuel v tr
  | fuel, .vRwLock _ v, tr => get_heap_size store fuel v tr
termination_by fuel v tr => (fuel, sizeOf v)
decreasing_by
  all_goals simp_wf
  all_goals first
    | exact Prod.Lex.left _ _ (Nat.lt_succ_self _)
    | (apply Prod.Lex.right; simp_arith)

/-- The element loop of `impl_size_set!` / `impl_size_set_no_capacity!`:
`let mut total = 0; for v in self.iter() { total +=
GetSize::get_size(v, tracker); }` with element type `t`, accumulator
`acc`. -/
def heap_size_elems (store : Store) :
    Nat → Ty → List Value → Nat → Tracker → Option (Nat × Tracker)
  | _, _, [], acc, tr => some (acc, tr)
  | fuel, t, v :: vs, acc, tr =>
    match get_heap_size store fuel v tr with
    | none => none
    | some (h, tr') =>
      heap_size_elems store fuel t vs (acc + (get_stack_size t + h)) tr'
termination_by fuel t vs acc tr => (fuel, sizeOf vs)
decreasing_by
  all_goals simp_wf
  all_goals first
    | exact Prod.Lex.left _ _ (Nat.lt_succ_self _)
    | (apply Prod.Lex.right; simp_arith)

end

/-- `GetSize::get_size` (lines 74-76): the trait default
`Self::get_stack_size() + GetSize::get_heap_size(self, tracker)`.  No
implementation in the crate overrides it. -/
def get_size (store : Store) (fuel : Nat) (v : Value) (tr : Tracker) :
    Option (Nat × Tracker) :=
  (get_heap_size store fuel v tr).map (fun p => (get_stack_size (typeOf v) + p.1, p.2))

/-- `LockResult<Guard>` of `std::sync`: `Mutex::lock()` / `RwLock::read()`
return `Err(PoisonError)` iff a thread panicked while holding the lock,
and `Ok(guard)` otherwise.  The fragment's `Value.vMutex`/`Value.vRwLock`
constructors carry the guarded value of an unpoisoned lock; this function
embeds the acquisition itself, with the poison state explicit. -/
def lock (poisoned : Bool) (v : Value) : Except Unit Value :=
  if poisoned then .error () else .ok v

/-- The outcome of running one `get_heap_size` body whose source can
panic: `.panicked` models a `panic!` unwind (here: `.unwrap()` on an
`Err` `LockResult`), and `.returned r` a normal return with the fueled
result `r` as elsewhere (`none` = fuel ran out). -/
inductive RunOutcome where
  | panicked
  | returned (r : Option (Nat × Tracker))
deriving DecidableEq

/-- The full body of `impl GetSize for Mutex<T>::get_heap_size`
(src/src/lib.rs lines 442-450) with the lock's poison state explicit:
`GetSize::get_heap_size(&*(self.lock().unwrap()), tracker)`.  When
`self.lock()` yields `Err(PoisonError)` — the lock is poisoned — the
`.unwrap()` panics; otherwise the guarded value's heap size is
computed.  The `vMutex` arm of `get_heap_size` is the `Ok` branch of
this body, i.e. the unpoisoned case. -/
def mutex_get_heap_size (store : Store) (fuel : Nat) (poisoned : Bool)
    (v : Value) (tr : Tracker) : RunOutcome :=
  match lock poisoned v with
  | .error _ => .panicked
  | .ok guard => .returned (get_heap_size store fuel guard tr)

/-- The full body of `impl GetSize for RwLock<T>::get_heap_size`
(src/src/lib.rs lines 452-460):
`GetSize::get_heap_size(&*(self.read().unwrap()), tracker)`, with the
poison state of `self.read()` explicit, as for `mutex_get_heap_size`. -/
def rwlock_get_heap_size (store : Store) (fuel : Nat) (poisoned : Bool)
    (v : Value) (tr : Tracker) : RunOutcome :=
  match lock poisoned v with
  | .error _ => .panicked
  | .ok guard => .returned (get_heap_size store fuel guard tr)

/-- The distinct addresses of the allocations present in the store. -/
def storeAddrs (store : Store) : List Nat := (store.map Prod.fst).dedup

/-- How many distinct store addresses a set-backed tracker with visited
set `s` has not yet tracked. -/
def untracked (store : Store) (s : List Nat) : Nat :=
  ((storeAddrs store).filter (fun a => decide (a ∉ s))).length

/-- Enough fuel for any top-level traversal with a set-backed tracker:
more units than there are distinct shared allocations. -/
def topFuel (store : Store) : Nat := (storeAddrs store).length + 1

/-- The specification's reading of the container element rule: the sum
over the elements of the element's total size (stack plus heap),
threading the tracker left to right — a plain right fold, in contrast to
the source's accumulator loop `heap_size_elems`. -/
def sum_total_sizes (store : Store) (fuel : Nat) (t : Ty) :
    List Value → Tracker → Option (Nat × Tracker)
  | [], tr => some (0, tr)
  | v :: vs, tr =>
    match get_heap_size store fuel v tr with
    | none => none
    | some (h, tr') =>
      (sum_total_sizes store fuel t vs tr').map
        (fun p => ((get_stack_size t + h) + p.1, p.2))

/-! ## The code-generation facility

A model of `src/get-size-derive/src/lib.rs`: what `derive_get_size`
emits for a given type shape and attached configuration, and when it
fails (a `panic!`/`.unwrap()` failure inside a proc macro halts the
dependent build). -/

/-- A method signature inside a trait or an `impl` block: its name and
its number of parameters besides `self` (for the associated-function
`get_stack_size`, simply its number of parameters). -/
structure MethodSig where
  name : String
  arity : Nat
deriving DecidableEq

/-- The methods of the core `GetSize` trait (src/src/lib.rs lines
54-77): `get_stack_size()`, `get_heap_size(&self, tracker: &mut dyn
GetSizeTracker)` — one parameter, the tracker — and the derived
`get_size(&self, tracker)`. -/
def coreTraitMethods : List MethodSig :=
  [⟨"get_stack_size", 0⟩, ⟨"get_heap_size", 1⟩, ⟨"get_size", 1⟩]

/-- The two entry points the derive macro emits for every nonempty
struct (derive lib.rs lines 278-299) and nonempty enum (lines 200-221):
the convenience `fn get_heap_size(&self) -> usize`, which constructs a
fresh `get_size::StandardTracker::default()` and delegates, and the
tracker-accepting `fn get_heap_size_with_tracker<TRACKER:
get_size::GetSizeTracker>(&self, tracker: TRACKER) -> (usize, TRACKER)`
used by recursive composition from enclosing types. -/
def derivedEntryPoints : List MethodSig :=
  [⟨"get_heap_size", 0⟩, ⟨"get_heap_size_with_tracker", 1⟩]

/-- One meta item inside an attribute list: `ignore(A, B)` is
`.list "ignore" ["A", "B"]`, a bare key `foo` is `.path "foo"`. -/
inductive MetaItem where
  | path (name : String)
  | list (name : String) (paths : List String)
deriving DecidableEq

/-- `extract_ignored_generics` (derive lib.rs lines 36-67): attributes
whose path is not `get_size` are skipped; inside a `get_size` list, the
idents under an `ignore(...)` item are collected and every other item is
skipped (`return Ok(()); // Just skip.`).  Nothing is ever rejected. -/
def extract_ignored_generics (attr : String × List MetaItem) : List String :=
  if attr.1 = "get_size" then
    (attr.2.map fun item =>
      match item with
      | .path _ => []
      | .list n paths => if n = "ignore" then paths else []).flatten
  else []

/-- `extract_ignored_generics_list` (derive lib.rs lines 24-34). -/
def extract_ignored_generics_list (attrs : List (String × List MetaItem)) :
    List String :=
  (attrs.map extract_ignored_generics).flatten

/-- A generic type parameter with its bounds. -/
structure TypeParamModel where
  name : String
  bounds : List String
deriving DecidableEq

/-- `add_trait_bounds` (derive lib.rs lines 70-92): push a `GetSize`
bound onto every type parameter whose name is not in the ignored list.
A name in the ignored list that matches no parameter is never consulted
again. -/
def add_trait_bounds (params : List TypeParamModel) (ignored : List String) :
    List TypeParamModel :=
  params.map fun p =>
    if p.name ∈ ignored then p else { p with bounds := p.bounds ++ ["GetSize"] }

/-- One key inside a field-level `#[get_size(...)]` attribute. -/
inductive FieldAttrKey where
  | size (n : Nat)
  | size_fn (f : String)
  | ignore
  | unknown (key : String)
deriving DecidableEq

/-- The parsed field configuration (`StructFieldAttribute`, derive
lib.rs lines 11-20). -/
structure StructFieldAttribute where
  size : Option Nat
  size_fn : Option String
  ignore : Bool
deriving DecidableEq

/-- Modelled from the spec: the field-attribute parser is provided by
the external `attribute_derive` crate and is missing from this
repository's sources; only its configuration is declared here (derive
lib.rs lines 11-20): recognized keys `size`, `size_fn`, `ignore`, each
pair declared `conflicts`.  Per the spec's error semantics, an unknown
key or a directive conflict yields an error, which `derive_get_size`
then `.unwrap()`s into a generation-time panic. -/
def mkFieldAttr : StructFieldAttribute → List FieldAttrKey →
    Except String StructFieldAttribute
  | acc, [] =>
    if (if acc.size.isSome then 1 else 0) + (if acc.size_fn.isSome then 1 else 0) +
        (if acc.ignore then 1 else 0) ≤ 1 then .ok acc
    else .error "conflicting attributes"
  | acc, .size n :: rest => mkFieldAttr { acc with size := some n } rest
  | acc, .size_fn f :: rest => mkFieldAttr { acc with size_fn := some f } rest
  | acc, .ignore :: rest => mkFieldAttr { acc with ignore := true } rest
  | _, .unknown key :: _ => .error ("unknown attribute: " ++ key)

/-- `StructFieldAttribute::from_attributes(&field.attrs)`. -/
def from_attributes (attrs : List FieldAttrKey) : Except String StructFieldAttribute :=
  mkFieldAttr ⟨none, none, false⟩ attrs

/-- A struct field: its name (none for tuple-struct fields) and its
`#[get_size(...)]` keys. -/
structure FieldModel where
  name : Option String
  attrs : List FieldAttrKey
deriving DecidableEq

/-- An enum variant's field layout. -/
inductive VariantFieldsModel where
  | unit
  | unnamed (n : Nat)
  | named (names : List String)
deriving DecidableEq

/-- An enum variant. -/
structure VariantModel where
  name : String
  fields : VariantFieldsModel
deriving DecidableEq

/-- The shape of the type the derive macro is invoked on. -/
inductive DataModel where
  | structData (fields : List FieldModel)
  | enumData (variants : List VariantModel)
  | unionData
deriving DecidableEq

/-- The parsed `DeriveInput`: type name, its attributes, its generic
parameters and its shape. -/
structure DeriveInputModel where
  name : String
  attrs : List (String × List MetaItem)
  generics : List TypeParamModel
  data : DataModel
deriving DecidableEq

/-- The impl block the macro emits: the methods it defines and the
generics (with injected bounds) it is emitted under. -/
structure GenImpl where
  methods : List MethodSig
  generics : List TypeParamModel
deriving DecidableEq

/-- The per-field attribute-parsing loop of the struct branch (derive
lib.rs lines 237-240): each field's attributes are parsed and the result
`.unwrap()`ed, so the first parse error aborts generation. -/
def parse_field_attrs : List FieldModel → Except String Unit
  | [] => .ok ()
  | f :: fs =>
    match from_attributes f.attrs with
    | .error e => .error e
    | .ok _ => parse_field_attrs fs

/-- `derive_get_size` (derive lib.rs lines 96-303), modelling which impl
block it emits and when it fails.  A `union` panics outright; an empty
struct or enum emits the bare `impl GetSize for Name {}` (no methods, no
generics); a nonempty struct parses every field attribute and, like a
nonempty enum, emits the two generated entry points under the
bound-injected generics. -/
def derive_get_size (input : DeriveInputModel) : Except String GenImpl :=
  let ignored := extract_ignored_generics_list input.attrs
  let generics := add_trait_bounds input.generics ignored
  match input.data with
  | .enumData variants =>
    if variants.isEmpty then .ok ⟨[], []⟩
    else .ok ⟨derivedEntryPoints, generics⟩
  | .unionData => .error "Deriving GetSize for unions is currently not supported."
  | .structData fields =>
    if fields.isEmpty then .ok ⟨[], []⟩
    else
      match parse_field_attrs fields with
      | .error e => .error e
      | .ok _ => .ok ⟨derivedEntryPoints, generics⟩

/-- The crate's own test struct `TestStruct { value1: String, value2:
u64 }` (src/src/tests/mod.rs lines 3-7), as passed to the derive
macro. -/
def testStructInput : DeriveInputModel :=
  ⟨"TestStruct", [], [], .structData [⟨some "value1", []⟩, ⟨some "value2", []⟩]⟩

/-- A generic struct with one parameter `A` whose type-level attribute
exempts the nonexistent parameter `Z`:
`#[derive(GetSize)] #[get_size(ignore(Z))] struct S<A> { value1: A }`. -/
def bogusIgnoreInput : DeriveInputModel :=
  ⟨"S", [("get_size", [.list "ignore" ["Z"]])], [⟨"A", []⟩],
    .structData [⟨some "value1", []⟩]⟩

/-- A struct with an unknown key in a field attribute:
`struct S { #[get_size(foo)] value1: String }`. -/
def unknownKeyInput : DeriveInputModel :=
  ⟨"S", [], [], .structData [⟨some "value1", [.unknown "foo"]⟩]⟩

/-- The store and value for the concrete double-reference scenario: one
allocation at address 0 holding `7u64`, referenced by both components of
a pair of `Rc<u64>` handles. -/
def rcPairStore : Store := [(0, Value.vU64 7)]

/-- Two `Rc<u64>` handles to the same allocation, in one tuple. -/
def rcPairValue : Value := .vPair (.vRc .u64 0) (.vRc .u64 0)

/-- A genuinely cyclic store: the allocation at address 0 holds an
`Rc` handle pointing back to address 0 itself. -/
def cyclicStore : Store := [(0, Value.vRc (.rc .u64) 0)]

theorem mem_storeAddrs_of_lookup {store : Store} {a : Nat} {pv : Value}
    (h : lookupStore store a = some pv) : a ∈ storeAddrs store := by
  unfold lookupStore at h
  obtain ⟨p, hfind, -⟩ := Option.map_eq_some'.mp h
  have hmem := List.mem_of_find?_eq_some hfind
  have hpred : p.1 = a := by simpa using List.find?_some hfind
  exact List.mem_dedup.mpr (List.mem_map.mpr ⟨p, hmem, hpred⟩)

theorem untracked_cons_lt {store : Store} {a : Nat} {s : List Nat}
    (hmem : a ∈ storeAddrs store) (hnot : a ∉ s) :
    untracked store (a :: s) < untracked store s := by
  unfold untracked
  have hsplit : ((storeAddrs store).filter (fun x => decide (x ∉ a :: s))) =
      ((storeAddrs store).filter (fun x => decide (x ∉ s))).filter
        (fun x => decide (x ≠ a)) := by
    rw [List.filter_filter]
    apply List.filter_congr
    intro x _
    simp [List.mem_cons, not_or, and_comm]
  rw [hsplit]
  apply List.length_filter_lt_length_iff_exists.mpr
  exact ⟨a, List.mem_filter.mpr ⟨hmem, by simpa using hnot⟩, by simp⟩

theorem untracked_le_of_subset {store : Store} {s s' : List Nat} (h : s ⊆ s') :
    untracked store s' ≤ untracked store s :=
  List.Sublist.length_le
    (List.monotone_filter_right _ (fun a ha => by
      simp only [decide_eq_true_eq] at ha ⊢
      exact fun hc => ha (h hc)))

theorem untracked_lt_topFuel (store : Store) (s : List Nat) :
    untracked store s < topFuel store :=
  Nat.lt_succ_of_le (List.length_filter_le _ _)

mutual

/-- With a set-backed tracker (`BTreeSet` or `HashSet`) the fueled heap
traversal always succeeds once the fuel exceeds the number of distinct
untracked shared allocations, and the visited set only grows: every
dereference into the store first marks a previously unseen address. -/
theorem get_heap_size_total (store : Store) :
    ∀ (fuel : Nat) (v : Value) (i : SetImpl) (s : List Nat),
      untracked store s < fuel →
      ∃ n s', get_heap_size store fuel v (.set i s) = some (n, .set i s') ∧ s ⊆ s'
  | 0, _, _, _, hlt => absurd hlt (Nat.not_lt_zero _)
  | _ + 1, .vUnit, _, s, _ => ⟨0, s, by simp [get_heap_size], List.Subset.refl s⟩
  | _ + 1, .vBool _, _, s, _ => ⟨0, s, by simp [get_heap_size], List.Subset.refl s⟩
  | _ + 1, .vU8 _, _, s, _ => ⟨0, s, by simp [get_heap_size], List.Subset.refl s⟩
  | _ + 1, .vU64 _, _, s, _ => ⟨0, s, by simp [get_heap_size], List.Subset.refl s⟩
  | _ + 1, .vStrRef _, _, s, _ => ⟨0, s, by simp [get_heap_size], List.Subset.refl s⟩
  | _ + 1, .vString _ cap, _, s, _ =>
    ⟨cap, s, by simp [get_heap_size], List.Subset.refl s⟩
  | _ + 1, .vOsString len _, _, s, _ =>
    ⟨len, s, by simp [get_heap_size], List.Subset.refl s⟩
  | _ + 1, .vCString lenWithNul, _, s, _ =>
    ⟨lenWithNul, s, by simp [get_heap_size], List.Subset.refl s⟩
  | _ + 1, .vBoxedStr len, _, s, _ =>
    ⟨len, s, by simp [get_heap_size], List.Subset.refl s⟩
  | _ + 1, .vPathBuf _ cap, _, s, _ =>
    ⟨cap, s, by simp [get_heap_size], List.Subset.refl s⟩
  | f + 1, .vCapSet _ t elems cap, i, s, hlt => by
    obtain ⟨n, s', hrun, hsub⟩ := heap_size_elems_total store (f + 1) t elems 0 i s hlt
    exact ⟨n + (cap - elems.length) * get_stack_size t, s',
      by simp [get_heap_size, hrun], hsub⟩
  | f + 1, .vNoCapSet _ t elems, i, s, hlt => by
    obtain ⟨n, s', hrun, hsub⟩ := heap_size_elems_total store (f + 1) t elems 0 i s hlt
    exact ⟨n, s', by simp [get_heap_size, hrun], hsub⟩
  | f + 1, .vBoxed t v, i, s, hlt => by
    obtain ⟨n, s', hrun, hsub⟩ := get_heap_size_total store (f + 1) v i s hlt
    exact ⟨get_stack_size t + n, s', by simp [get_heap_size, hrun], hsub⟩
  | f + 1, .vRc t addr, i, s, hlt => by
    by_cases hmem : addr ∈ s
    · exact ⟨0, s, by simp [get_heap_size, track, hmem], List.Subset.refl s⟩
    · cases hlook : lookupStore store addr with
      | none =>
        exact ⟨0, addr :: s, by simp [get_heap_size, track, hmem, hlook],
          List.subset_cons_self addr s⟩
      | some pv =>
        have hlt' : untracked store (addr :: s) < f :=
          Nat.lt_of_lt_of_le
            (untracked_cons_lt (mem_storeAddrs_of_lookup hlook) hmem)
            (Nat.lt_succ_iff.mp hlt)
        obtain ⟨n, s', hrun, hsub⟩ := get_heap_size_total store f pv i (addr :: s) hlt'
        exact ⟨get_stack_size t + n, s', by simp [get_heap_size, track, hmem, hlook, hrun],
          fun x hx => hsub (List.mem_cons_of_mem addr hx)⟩
  | f + 1, .vArc t addr, i, s, hlt => by
    by_cases hmem : addr ∈ s
    · exact ⟨0, s, by simp [get_heap_size, track, hmem], List.Subset.refl s⟩
    · cases hlook : lookupStore store addr with
      | none =>
        exact ⟨0, addr :: s, by simp [get_heap_size, track, hmem, hlook],
          List.subset_cons_self addr s⟩
      | some pv =>
        have hlt' : untracked store (addr :: s) < f :=
          Nat.lt_of_lt_of_le
            (untracked_cons_lt (mem_storeAddrs_of_lookup hlook) hmem)
            (Nat.lt_succ_iff.mp hlt)
        obtain ⟨n, s', hrun, hsub⟩ := get_heap_size_total store f pv i (addr :: s) hlt'
        exact ⟨get_stack_size t + n, s', by simp [get_heap_size, track, hmem, hlook, hrun],
          fun x hx => hsub (List.mem_cons_of_mem addr hx)⟩
  | f + 1, .vWeakRc t addr, i, s, hlt => by
    by_cases hmem : addr ∈ s
    · exact ⟨0, s, by simp [get_heap_size, track, hmem], List.Subset.refl s⟩
    · cases hlook : lookupStore store addr with
      | none =>
        exact ⟨0, addr :: s, by simp [get_heap_size, track, hmem, hlook],
          List.subset_cons_self addr s⟩
      | some pv =>
        have hlt' : untracked store (addr :: s) < f :=
          Nat.lt_of_lt_of_le
            (untracked_cons_lt (mem_storeAddrs_of_lookup hlook) hmem)
            (Nat.lt_succ_iff.mp hlt)
        obtain ⟨n, s', hrun, hsub⟩ := get_heap_size_total store f pv i (addr :: s) hlt'
        exact ⟨get_stack_size t + n, s', by simp [get_heap_size, track, hmem, hlook, hrun],
          fun x hx => hsub (List.mem_cons_of_mem addr hx)⟩
  | f + 1, .vWeakArc t addr, i, s, hlt => by
    by_cases hmem : addr ∈ s
    · exact ⟨0, s, by simp [get_heap_size, track, hmem], List.Subset.refl s⟩
    · cases hlook : lookupStore store addr with
      | none =>
        exact ⟨0, addr :: s, by simp [get_heap_size, track, hmem, hlook],
          List.subset_cons_self addr s⟩
      | some pv =>
        have hlt' : untracked store (addr :: s) < f :=
          Nat.lt_of_lt_of_le
            (untracked_cons_lt (mem_storeAddrs_of_lookup hlook) hmem)
            (Nat.lt_succ_iff.mp hlt)
        obtain ⟨n, s', hrun, hsub⟩ := get_heap_size_total store f pv i (addr :: s) hlt'
        exact ⟨get_stack_size t + n, s', by simp [get_heap_size, track, hmem, hlook, hrun],
          fun x hx => hsub (List.mem_cons_of_mem addr hx)⟩
  | f + 1, .vOption _ none, _, s, _ =>
    ⟨0, s, by simp [get_heap_size], List.Subset.refl s⟩
  | f + 1, .vOption _ (some v), i, s, hlt => by
    obtain ⟨n, s', hrun, hsub⟩ := get_heap_size_total store (f + 1) v i s hlt
    exact ⟨n, s', by simp [get_heap_size, hrun], hsub⟩
  | f + 1, .vPair a b, i, s, hlt => by
    obtain ⟨na, s1, hra, hsa⟩ := get_heap_size_total store (f + 1) a i s hlt
    have hlt1 : untracked store s1 < f + 1 :=
      Nat.lt_of_le_of_lt (untracked_le_of_subset hsa) hlt
    obtain ⟨nb, s2, hrb, hsb⟩ := get_heap_size_total store (f + 1) b i s1 hlt1
    exact ⟨na + nb, s2, by simp [get_heap_size, hra, hrb], fun x hx => hsb (hsa hx)⟩
  | f + 1, .vMutex _ v, i, s, hlt => by
    obtain ⟨n, s', hrun, hsub⟩ := get_heap_size_total store (f + 1) v i s hlt
    exact ⟨n, s', by simp [get_heap_size, hrun], hsub⟩
  | f + 1, .vRwLock _ v, i, s, hlt => by
    obtain ⟨n, s', hrun, hsub⟩ := get_heap_size_total store (f + 1) v i s hlt
    exact ⟨n, s', by simp [get_heap_size, hrun], hsub⟩
termination_by fuel v i s hlt => (fuel, sizeOf v)
decreasing_by
  all_goals simp_wf
  all_goals first
    | exact Prod.Lex.left _ _ (Nat.lt_succ_self _)
    | (apply Prod.Lex.right; simp_arith)

/-- The element loop succeeds under the same fuel bound, likewise only
growing the visited set. -/
theorem heap_size_elems_total (store : Store) :
    ∀ (fuel : Nat) (t : Ty) (vs : List Value) (acc : Nat) (i : SetImpl) (s : List Nat),
      untracked store s < fuel →
      ∃ n s', heap_size_elems store fuel t vs acc (.set i s) = some (n, .set i s') ∧ s ⊆ s'
  | 0, _, _, _, _, _, hlt => absurd hlt (Nat.not_lt_zero _)
  | _ + 1, _, [], acc, _, s, _ =>
    ⟨acc, s, by simp [heap_size_elems], List.Subset.refl s⟩
  | f + 1, t, v :: vs, acc, i, s, hlt => by
    obtain ⟨n, s1, hr, hs⟩ := get_heap_size_total store (f + 1) v i s hlt
    have hlt1 : untracked store s1 < f + 1 :=
      Nat.lt_of_le_of_lt (untracked_le_of_subset hs) hlt
    obtain ⟨m, s2, hr2, hs2⟩ :=
      heap_size_elems_total store (f + 1) t vs (acc + (get_stack_size t + n)) i s1 hlt1
    exact ⟨m, s2, by simp [heap_size_elems, hr, hr2], fun x hx => hs2 (hs hx)⟩
termination_by fuel t vs acc i s hlt => (fuel, sizeOf vs)
decreasing_by
  all_goals simp_wf
  all_goals first
    | exact Prod.Lex.left _ _ (Nat.lt_succ_self _)
    | (apply Prod.Lex.right; simp_arith)

end

theorem heap_size_elems_eq_sum (store : Store) (fuel : Nat) (t : Ty) :
    ∀ (vs : List Value) (acc : Nat) (tr : Tracker),
      heap_size_elems store fuel t vs acc tr =
        (sum_total_sizes store fuel t vs tr).map (fun p => (acc + p.1, p.2))
  | [], acc, tr => by simp [heap_size_elems, sum_total_sizes]
  | v :: vs, acc, tr => by
    cases hv : get_heap_size store fuel v tr with
    | none => simp [heap_size_elems, sum_total_sizes, hv]
    | some p =>
      obtain ⟨h, tr'⟩ := p
      simp only [heap_size_elems, sum_total_sizes, hv]
      rw [heap_size_elems_eq_sum store fuel t vs]
      cases hs : sum_total_sizes store fuel t vs tr' with
      | none => simp
      | some q => simp [Nat.add_assoc]

/-- C1: `get_size` is the sum of `get_stack_size` and `get_heap_size`:
whenever the heap computation returns `n` with final tracker `tr'`, the
total-size computation on the same value and tracker returns
`get_stack_size + n` with the same final tracker.  The trait default
(src/src/lib.rs lines 74-76) is the only definition of `get_size` in the
crate — no `impl GetSize for ...` in `lib.rs` or `remote/` overrides it —
so the embedding defines it once, for every value of the fragment. -/
theorem c1_total_eq_stack_plus_heap (store : Store) (fuel : Nat) (v : Value)
    (tr tr' : Tracker) (n : Nat)
    (h : get_heap_size store fuel v tr = some (n, tr')) :
    get_size store fuel v tr = some (get_stack_size (typeOf v) + n, tr') := by
  simp [get_size, h]

/-- Witness for C1 at a concrete input: a `String` of length 5 and
capacity 8 has heap size 8 and total size `get_stack_size + 8`. -/
theorem c1_total_eq_stack_plus_heap_witness :
    get_heap_size [] 1 (Value.vString 5 8) (.set .btree []) =
      some (8, .set .btree []) ∧
    get_size [] 1 (Value.vString 5 8) (.set .btree []) =
      some (get_stack_size (typeOf (Value.vString 5 8)) + 8, .set .btree []) :=
  ⟨by simp [get_heap_size],
   c1_total_eq_stack_plus_heap [] 1 (Value.vString 5 8) (.set .btree [])
     (.set .btree []) 8 (by simp [get_heap_size])⟩

/-- C4: a capacity-exposing container's heap size is the sum over the
elements of the element's total size (stack plus heap, tracker threaded
left to right) plus `(capacity − length) ·` the element type's stack
size; a container without an exposed capacity contributes exactly that
sum, with no slack term.  Concretely, a `Vec<String>` of length 2 and
capacity 4 holding strings of capacities 5 and 4 contributes
`(24+5) + (24+4) + (4−2)·24 = 105`. -/
theorem c4_container_heap_rule (store : Store) (fuel : Nat) (k : CapKind)
    (k' : NoCapKind) (t : Ty) (elems : List Value) (cap : Nat) (tr : Tracker) :
    (get_heap_size store fuel (.vCapSet k t elems cap) tr =
      (sum_total_sizes store fuel t elems tr).map
        (fun p => (p.1 + (cap - elems.length) * get_stack_size t, p.2))) ∧
    (get_heap_size store fuel (.vNoCapSet k' t elems) tr =
      sum_total_sizes store fuel t elems tr) ∧
    get_heap_size [] 1
        (.vCapSet .vec .string [.vString 5 5, .vString 3 4] 4) (.set .btree []) =
      some (105, .set .btree []) := by
  refine ⟨?_, ?_, ?_⟩
  · simp only [get_heap_size, heap_size_elems_eq_sum]
    cases hs : sum_total_sizes store fuel t elems tr with
    | none => simp
    | some p => obtain ⟨m, tr'⟩ := p; simp
  · simp only [get_heap_size, heap_size_elems_eq_sum]
    cases hs : sum_total_sizes store fuel t elems tr with
    | none => simp
    | some p => obtain ⟨m, tr'⟩ := p; simp
  · simp [get_heap_size, heap_size_elems, get_stack_size]

/-- C7 counterexample: an `OsString` of used length 5 and allocated
capacity 8 contributes heap size 5 — its used length, not its allocated
capacity (`impl GetSize for OsString` calls `self.len()`,
src/src/lib.rs lines 482-486). -/
theorem c7_osstring_counterexample :
    get_heap_size [] 1 (Value.vOsString 5 8) (.set .btree []) =
      some (5, .set .btree []) ∧ (5 : Nat) ≠ 8 :=
  ⟨by simp [get_heap_size], by decide⟩

/-- C7 amended: `String` and `PathBuf` report their allocated capacity;
`CString` and `Box<str>` report their exact allocation size, which for
them is determined by the length (they carry no spare capacity); but
`OsString` reports its used length, not its allocated capacity. -/
theorem c7_buffer_heap_sizes (store : Store) (fuel : Nat) (tr : Tracker) :
    (∀ len cap, get_heap_size store fuel (.vString len cap) tr = some (cap, tr)) ∧
    (∀ len cap, get_heap_size store fuel (.vPathBuf len cap) tr = some (cap, tr)) ∧
    (∀ lenWithNul, get_heap_size store fuel (.vCString lenWithNul) tr =
      some (lenWithNul, tr)) ∧
    (∀ len, get_heap_size store fuel (.vBoxedStr len) tr = some (len, tr)) ∧
    (∀ len cap, get_heap_size store fuel (.vOsString len cap) tr = some (len, tr)) := by
  refine ⟨?_, ?_, ?_, ?_, ?_⟩ <;> intros <;> simp [get_heap_size]

/-- C8: a weak reference whose target has been freed (its address is
absent from the store, so `upgrade()` returns `None`) contributes heap
size 0 and the computation succeeds — no failure — both when its target
identity was not yet tracked (it is then marked) and when it was already
tracked.  Both `rc::Weak` and `sync::Weak` behave this way. -/
theorem c8_weak_freed_zero (store : Store) (fuel : Nat) (t : Ty) (addr : Nat)
    (i : SetImpl) (s : List Nat) (h : lookupStore store addr = none) :
    get_heap_size store fuel (.vWeakRc t addr) (.set i s) =
      some (0, .set i (if addr ∈ s then s else addr :: s)) ∧
    get_heap_size store fuel (.vWeakArc t addr) (.set i s) =
      some (0, .set i (if addr ∈ s then s else addr :: s)) := by
  by_cases hmem : addr ∈ s <;> simp [get_heap_size, track, hmem, h]

/-- Witness for C8: weak references to the absent address 0, over the
empty store, with a fresh tracker and with a tracker that has already
seen 0. -/
theorem c8_weak_freed_zero_witness :
    lookupStore [] 0 = none ∧
    get_heap_size [] 1 (Value.vWeakRc .u64 0) (.set .btree []) =
      some (0, .set .btree [0]) ∧
    get_heap_size [] 1 (Value.vWeakArc .u64 0) (.set .btree [0]) =
      some (0, .set .btree [0]) := by
  refine ⟨rfl, ?_, ?_⟩
  · have h := (c8_weak_freed_zero [] 1 .u64 0 .btree [] rfl).1
    simpa using h
  · have h := (c8_weak_freed_zero [] 1 .u64 0 .btree [0] rfl).2
    simpa using h

/-- C2: with a set-backed tracker, an `Rc`/`Arc` whose allocation address
is not yet tracked contributes the pointee's full total size
(`get_size`, i.e. stack plus heap) computed with the address freshly
marked seen; one whose address is already tracked contributes exactly 0
and leaves the tracker unchanged.  Concretely, for a pair of `Rc<u64>`
handles to one allocation of `7u64`: a top-level call from a fresh
`BTreeSet` tracker counts the allocation once (heap size `8 + 0`), a
second independent top-level call from its own fresh `HashSet` tracker
again counts it once, and only a call that (unlike any top-level call)
starts from the already-populated tracker yields 0. -/
theorem c2_shared_counted_once_per_call (store : Store) (f : Nat) (t : Ty)
    (addr : Nat) (i : SetImpl) (s : List Nat) (pv : Value) :
    (addr ∉ s → lookupStore store addr = some pv → typeOf pv = t →
      get_heap_size store (f + 1) (.vRc t addr) (.set i s) =
        get_size store f pv (.set i (addr :: s))) ∧
    (addr ∈ s → get_heap_size store f (.vRc t addr) (.set i s) =
      some (0, .set i s)) ∧
    (addr ∉ s → lookupStore store addr = some pv → typeOf pv = t →
      get_heap_size store (f + 1) (.vArc t addr) (.set i s) =
        get_size store f pv (.set i (addr :: s))) ∧
    (addr ∈ s → get_heap_size store f (.vArc t addr) (.set i s) =
      some (0, .set i s)) ∧
    get_heap_size rcPairStore 2 rcPairValue (.set .btree []) =
      some (8, .set .btree [0]) ∧
    get_heap_size rcPairStore 2 rcPairValue (.set .hash []) =
      some (8, .set .hash [0]) ∧
    get_heap_size rcPairStore 2 rcPairValue (.set .btree [0]) =
      some (0, .set .btree [0]) := by
  refine ⟨?_, ?_, ?_, ?_, ?_, ?_, ?_⟩
  · intro h1 h2 h3
    simp [get_heap_size, track, h1, h2, get_size, h3]
  · intro h1
    simp [get_heap_size, track, h1]
  · intro h1 h2 h3
    simp [get_heap_size, track, h1, h2, get_size, h3]
  · intro h1
    simp [get_heap_size, track, h1]
  · simp [get_heap_size, rcPairStore, rcPairValue, track, lookupStore,
      List.find?, get_stack_size]
  · simp [get_heap_size, rcPairStore, rcPairValue, track, lookupStore,
      List.find?, get_stack_size]
  · simp [get_heap_size, rcPairStore, rcPairValue, track, lookupStore,
      List.find?, get_stack_size]

/-- Witness for C2 at concrete inputs: address 0 with pointee `7u64`,
first untracked then tracked. -/
theorem c2_shared_counted_once_per_call_witness :
    (0 : Nat) ∉ ([] : List Nat) ∧
    lookupStore rcPairStore 0 = some (Value.vU64 7) ∧
    typeOf (Value.vU64 7) = .u64 ∧
    get_heap_size rcPairStore 1 (.vRc .u64 0) (.set .btree []) =
      get_size rcPairStore 0 (Value.vU64 7) (.set .btree [0]) ∧
    (0 : Nat) ∈ [0] ∧
    get_heap_size rcPairStore 1 (.vRc .u64 0) (.set .btree [0]) =
      some (0, .set .btree [0]) :=
  ⟨by simp, rfl, rfl,
   (c2_shared_counted_once_per_call rcPairStore 0 .u64 0 .btree [] (Value.vU64 7)).1
     (by simp) rfl rfl,
   by simp,
   (c2_shared_counted_once_per_call rcPairStore 1 .u64 0 .btree [0] (Value.vU64 7)).2.1
     (by simp)⟩

/-- C3: termination over arbitrary shared-ownership graphs — cyclic ones
included — with a fresh set-backed tracker: at fuel `topFuel store`
(one more than the number of distinct shared allocations) the traversal
always returns a result, because a dereference happens only when an
address is newly marked, so at most `(storeAddrs store).length`
dereferences ever occur.  Concretely, on the cyclic store whose
allocation 0 holds an `Rc` handle back to allocation 0, the fresh-tracker
computation returns `8` at that bound: the second encounter of address 0
contributes 0 instead of recursing. -/
theorem c3_cycle_terminates (store : Store) (v : Value) (i : SetImpl) :
    (∃ n s', get_heap_size store (topFuel store) v (.set i []) =
      some (n, .set i s')) ∧
    topFuel cyclicStore = 2 ∧
    get_heap_size cyclicStore (topFuel cyclicStore) (.vRc (.rc .u64) 0)
      (.set .btree []) = some (8, .set .btree [0]) := by
  refine ⟨?_, rfl, ?_⟩
  · obtain ⟨n, s', h, -⟩ :=
      get_heap_size_total store (topFuel store) v i [] (untracked_lt_topFuel store [])
    exact ⟨n, s', h⟩
  · have h2 : topFuel cyclicStore = 2 := rfl
    rw [h2]
    simp [get_heap_size, cyclicStore, track, lookupStore, List.find?, get_stack_size]

/-- C9 counterexample: traversing a `Mutex<String>` (or
`RwLock<String>`) whose lock is poisoned panics — `self.lock().unwrap()`
/ `self.read().unwrap()` on an `Err` `LockResult` (src/src/lib.rs lines
448, 458) — instead of returning the guarded value's heap size 8, so the
size computation does have a user-facing runtime error path. -/
theorem c9_poisoned_lock_counterexample :
    mutex_get_heap_size [] 1 true (Value.vString 5 8) (.set .btree []) =
      .panicked ∧
    rwlock_get_heap_size [] 1 true (Value.vString 5 8) (.set .btree []) =
      .panicked ∧
    RunOutcome.panicked ≠ .returned (some (8, .set .btree [])) :=
  ⟨rfl, rfl, by decide⟩

/-- C9 amended: the only runtime error path of the size computation is
the poisoned-lock panic in `Mutex`/`RwLock` traversal: an unpoisoned
lock returns exactly the guarded value's heap size with no error (and
the fragment's `vMutex`/`vRwLock` values contribute exactly the guarded
value's heap size), a poisoned lock panics, and a top-level `get_size`
with a fresh set-backed tracker always returns a value at fuel
`topFuel store`.  (With `GetSizeNoTracker`, return is not guaranteed on
cyclic graphs — non-termination, not an error; see C10.) -/
theorem c9_poison_is_only_runtime_error (store : Store) (fuel : Nat)
    (t t' : Ty) (v w u : Value) (tr : Tracker) (i : SetImpl) :
    mutex_get_heap_size store fuel false v tr =
      .returned (get_heap_size store fuel v tr) ∧
    rwlock_get_heap_size store fuel false v tr =
      .returned (get_heap_size store fuel v tr) ∧
    mutex_get_heap_size store fuel true v tr = .panicked ∧
    rwlock_get_heap_size store fuel true v tr = .panicked ∧
    get_heap_size store fuel (.vMutex t v) tr = get_heap_size store fuel v tr ∧
    get_heap_size store fuel (.vRwLock t' w) tr = get_heap_size store fuel w tr ∧
    get_size store (topFuel store) u (.set i []) ≠ none := by
  refine ⟨rfl, rfl, rfl, rfl, by simp [get_heap_size], by simp [get_heap_size], ?_⟩
  obtain ⟨n, s', h, -⟩ :=
    get_heap_size_total store (topFuel store) u i [] (untracked_lt_topFuel store [])
  simp [get_size, h]

/-- C10: `GetSizeNoTracker::track` always returns `true`, also for an
address it was given before; consequently with it a doubly referenced
allocation is counted in full at each of its 2 encounters (heap size
`16 = 8 + 8` for the pair of `Rc<u64>` handles whose set-tracked heap
size is 8), and over the cyclic store the traversal exhausts every fuel
bound, i.e. the recursion does not terminate. -/
theorem c10_no_tracker_counts_every_visit :
    (∀ a, track .noTracker a = (true, .noTracker)) ∧
    get_heap_size rcPairStore 2 rcPairValue .noTracker = some (16, .noTracker) ∧
    (∀ fuel, get_heap_size cyclicStore fuel (.vRc (.rc .u64) 0) .noTracker = none) := by
  refine ⟨fun a => rfl, ?_, ?_⟩
  · simp [get_heap_size, rcPairStore, rcPairValue, track, lookupStore,
      List.find?, get_stack_size]
  · intro fuel
    induction fuel with
    | zero =>
      rw [get_heap_size.eq_def]
      simp [track, cyclicStore, lookupStore, List.find?]
    | succ f ih =>
      rw [get_heap_size.eq_def]
      simp only [cyclicStore] at ih
      simp [track, cyclicStore, lookupStore, List.find?, ih]

theorem mkFieldAttr_error_of_unknown :
    ∀ (acc : StructFieldAttribute) (attrs : List FieldAttrKey) (k : String),
      FieldAttrKey.unknown k ∈ attrs → ∃ e, mkFieldAttr acc attrs = .error e
  | _, [], k, h => absurd h (List.not_mem_nil _)
  | acc, .size n :: rest, k, h => by
    rcases List.mem_cons.mp h with hc | hm
    · exact absurd hc (by simp)
    · simpa [mkFieldAttr] using
        mkFieldAttr_error_of_unknown { acc with size := some n } rest k hm
  | acc, .size_fn f :: rest, k, h => by
    rcases List.mem_cons.mp h with hc | hm
    · exact absurd hc (by simp)
    · simpa [mkFieldAttr] using
        mkFieldAttr_error_of_unknown { acc with size_fn := some f } rest k hm
  | acc, .ignore :: rest, k, h => by
    rcases List.mem_cons.mp h with hc | hm
    · exact absurd hc (by simp)
    · simpa [mkFieldAttr] using
        mkFieldAttr_error_of_unknown { acc with ignore := true } rest k hm
  | _, .unknown key :: _, _, _ => ⟨"unknown attribute: " ++ key, rfl⟩

theorem parse_field_attrs_error_of_error :
    ∀ (fields : List FieldModel) (f : FieldModel), f ∈ fields →
      (∃ e0, from_attributes f.attrs = .error e0) →
      ∃ e, parse_field_attrs fields = .error e
  | [], f, h, _ => absurd h (List.not_mem_nil _)
  | g :: fields, f, h, he => by
    rcases List.mem_cons.mp h with hc | hm
    · subst hc
      obtain ⟨e0, he0⟩ := he
      exact ⟨e0, by simp [parse_field_attrs, he0]⟩
    · cases hg : from_attributes g.attrs with
      | error e0 => exact ⟨e0, by simp [parse_field_attrs, hg]⟩
      | ok a =>
        obtain ⟨e, hrec⟩ := parse_field_attrs_error_of_error fields f hm he
        exact ⟨e, by simp [parse_field_attrs, hg, hrec]⟩

/-- C5 (code-bug evidence): on the crate's own test struct the derive
macro does synthesize exactly the two entry points the claim describes —
the tracker-constructing convenience entry `get_heap_size(&self)` and
the tracker-accepting entry `get_heap_size_with_tracker(&self, tracker)`
— but the emitted block is not an implementation of the core trait: the
core `GetSize` declares `get_heap_size` *with* a tracker parameter, so
the generated zero-parameter `get_heap_size` mismatches it, and
`get_heap_size_with_tracker` is not a method of the core trait at all
(nor does the referenced `get_size::StandardTracker` exist in the core
crate). -/
theorem c5_generated_impl_mismatches_core_trait :
    derive_get_size testStructInput = .ok ⟨derivedEntryPoints, []⟩ ∧
    MethodSig.mk "get_heap_size" 0 ∈ derivedEntryPoints ∧
    MethodSig.mk "get_heap_size_with_tracker" 1 ∈ derivedEntryPoints ∧
    MethodSig.mk "get_heap_size" 1 ∈ coreTraitMethods ∧
    MethodSig.mk "get_heap_size" 0 ∉ coreTraitMethods ∧
    MethodSig.mk "get_heap_size_with_tracker" 1 ∉ coreTraitMethods :=
  ⟨rfl, by decide, by decide, by decide, by decide, by decide⟩

/-- C6 counterexample: deriving with `#[get_size(ignore(Z))]` on a
struct whose only generic parameter is `A` succeeds — generation returns
an impl (with `A` still bounded), it does not fail — contradicting the
claim that an exemption naming a nonexistent generic parameter halts the
build. -/
theorem c6_bogus_exemption_counterexample :
    derive_get_size bogusIgnoreInput =
      .ok ⟨derivedEntryPoints, [⟨"A", ["GetSize"]⟩]⟩ := rfl

/-- C6 amended: an unknown key inside a field-level `#[get_size(...)]`
attribute halts generation with an error, but a type-level exemption
referencing a generic parameter name that does not exist on the type is
silently ignored: the bogus name has no effect on the injected bounds,
and generation succeeds. -/
theorem c6_unknown_key_fails_bogus_exemption_ignored (nm : String)
    (tattrs : List (String × List MetaItem)) (params : List TypeParamModel)
    (fields : List FieldModel) (f : FieldModel) (k z : String)
    (ignored : List String) :
    (f ∈ fields → FieldAttrKey.unknown k ∈ f.attrs →
      ∃ e, derive_get_size ⟨nm, tattrs, params, .structData fields⟩ = .error e) ∧
    (z ∉ params.map TypeParamModel.name →
      add_trait_bounds params (z :: ignored) = add_trait_bounds params ignored) ∧
    derive_get_size bogusIgnoreInput =
      .ok ⟨derivedEntryPoints, [⟨"A", ["GetSize"]⟩]⟩ := by
  refine ⟨?_, ?_, rfl⟩
  · intro hf hk
    obtain ⟨e, he⟩ := parse_field_attrs_error_of_error fields f hf
      (mkFieldAttr_error_of_unknown ⟨none, none, false⟩ f.attrs k hk)
    cases fields with
    | nil => exact absurd hf (List.not_mem_nil _)
    | cons g gs => exact ⟨e, by simp [derive_get_size, he]⟩
  · intro hz
    unfold add_trait_bounds
    apply List.map_congr_left
    intro p hp
    have hne : p.name ≠ z := fun hc => hz (hc ▸ List.mem_map_of_mem TypeParamModel.name hp)
    simp [List.mem_cons, hne]

/-- Witness for C6 (amended) at concrete inputs: the struct
`struct S { #[get_size(foo)] value1: String }` fails generation, and the
exemption list `["Z"]` has no effect on the single parameter `A`. -/
theorem c6_unknown_key_fails_bogus_exemption_ignored_witness :
    (⟨some "value1", [.unknown "foo"]⟩ : FieldModel) ∈
      [(⟨some "value1", [.unknown "foo"]⟩ : FieldModel)] ∧
    FieldAttrKey.unknown "foo" ∈ [FieldAttrKey.unknown "foo"] ∧
    (∃ e, derive_get_size unknownKeyInput = .error e) ∧
    "Z" ∉ ([⟨"A", []⟩] : List TypeParamModel).map TypeParamModel.name ∧
    add_trait_bounds [⟨"A", []⟩] ["Z"] = add_trait_bounds [⟨"A", []⟩] [] :=
  ⟨by simp, by simp,
   (c6_unknown_key_fails_bogus_exemption_ignored "S" [] []
       [⟨some "value1", [.unknown "foo"]⟩] ⟨some "value1", [.unknown "foo"]⟩
       "foo" "Z" []).1 (by simp) (by simp),
   by simp,
   (c6_unknown_key_fails_bogus_exemption_ignored "S" [] [⟨"A", []⟩]
       [⟨some "value1", [.unknown "foo"]⟩] ⟨some "value1", [.unknown "foo"]⟩
       "foo" "Z" []).2.1 (by simp)⟩
